import Mathlib

/-!
Verification of the crypto-price-monitor backend core: the periodic
price-ingestion and alert-evaluation loop.  The definitions below are a
shallow embedding of the TypeScript sources under `src/backend/src`
(`services/alertService.ts`, `services/cacheService.ts`,
`services/coinGeckoService.ts`, `app.ts`).  Prices and percentages are
modelled as rationals; timestamps and durations in milliseconds as
naturals; fallible collaborators (database, SMTP, upstream HTTP) are
modelled as explicit outcome parameters, and JavaScript exceptions as
`Except`.
-/

namespace CryptoMonitor

/-- The fields of `CryptoPriceData` (types/index.ts) that the core loop
reads: symbol, spot price and 24h percentage change.  The remaining
fields of the upstream payload are never inspected by the alert or cache
logic. -/
structure PriceData where
  symbol : String
  current_price : ℚ
  price_change_percentage_24h : ℚ
deriving DecidableEq, Repr

/-- The four alert condition kinds of the `Alert` interface
(types/index.ts): `'above' | 'below' | 'percent_increase' | 'percent_decrease'`. -/
inductive Condition where
  | above
  | below
  | percent_increase
  | percent_decrease
deriving DecidableEq, Repr

/-- An alert rule document (`Alert` in types/index.ts / models/Alert).
`targetPrice` and `percentageChange` are optional, matching the
TypeScript optional fields; `id` stands for the Mongo `_id`. -/
structure AlertRule where
  id : Nat
  userId : String
  symbol : String
  condition : Condition
  targetPrice : Option ℚ
  percentageChange : Option ℚ
  isActive : Bool
  createdAt : Nat
deriving DecidableEq, Repr

/-- The direction argument of `AlertService.checkPercentageChange`
(`'increase' | 'decrease'`). -/
inductive Direction where
  | increase
  | decrease
deriving DecidableEq, Repr

/-- Model of `AlertService.checkPercentageChange` (alertService.ts:129-143): if
`percentageChange` is undefined return false; otherwise compare the
snapshot's 24h percentage change against the threshold (`>=` for
increase, `<= -threshold` for decrease). -/
def checkPercentageChange (alert : AlertRule) (priceData : PriceData)
    (direction : Direction) : Bool :=
  match alert.percentageChange with
  | none => false
  | some pct =>
    match direction with
    | .increase => decide (priceData.price_change_percentage_24h ≥ pct)
    | .decrease => decide (priceData.price_change_percentage_24h ≤ -pct)

/-- Model of `AlertService.evaluateAlert` (alertService.ts:107-126): the switch on
the rule's condition.  For `above`/`below` the comparison is guarded by
`targetPrice !== undefined`; the percentage conditions delegate to
`checkPercentageChange`. -/
def evaluateAlert (alert : AlertRule) (priceData : PriceData) : Bool :=
  let currentPrice := priceData.current_price
  match alert.condition with
  | .above => alert.targetPrice.isSome &&
      decide (currentPrice > alert.targetPrice.getD 0)
  | .below => alert.targetPrice.isSome &&
      decide (currentPrice < alert.targetPrice.getD 0)
  | .percent_increase => checkPercentageChange alert priceData .increase
  | .percent_decrease => checkPercentageChange alert priceData .decrease

/-- Reference evaluator, written from the specification's condition
table (§4.3): strict threshold comparisons for price conditions,
inclusive ones for percentage conditions, and `false` whenever the
threshold field required by the condition is unset. -/
def evaluateSpec (alert : AlertRule) (priceData : PriceData) : Bool :=
  match alert.condition with
  | .above =>
    match alert.targetPrice with
    | none => false
    | some t => decide (priceData.current_price > t)
  | .below =>
    match alert.targetPrice with
    | none => false
    | some t => decide (priceData.current_price < t)
  | .percent_increase =>
    match alert.percentageChange with
    | none => false
    | some p => decide (priceData.price_change_percentage_24h ≥ p)
  | .percent_decrease =>
    match alert.percentageChange with
    | none => false
    | some p => decide (priceData.price_change_percentage_24h ≤ -p)

/-- Insertion of one rule into a list sorted by `createdAt` descending,
used to model the Mongo sort `{ createdAt: -1 }`. -/
def insertByCreatedAtDesc (a : AlertRule) : List AlertRule → List AlertRule
  | [] => [a]
  | b :: rest =>
    if a.createdAt ≥ b.createdAt then a :: b :: rest
    else b :: insertByCreatedAtDesc a rest

/-- Sort by `createdAt` descending (model of `.sort({ createdAt: -1 })`). -/
def sortByCreatedAtDesc (l : List AlertRule) : List AlertRule :=
  l.foldr insertByCreatedAtDesc []

/-- Model of `AlertService.getUserAlerts` (alertService.ts:25-35):
`Alert.find({ userId, isActive: true }).sort({ createdAt: -1 })` over a
rule store modelled as a list of documents. -/
def getUserAlerts (userId : String) (store : List AlertRule) : List AlertRule :=
  sortByCreatedAtDesc (store.filter (fun a => a.userId == userId && a.isActive))

theorem insertByCreatedAtDesc_all (p : AlertRule → Bool) (a : AlertRule)
    (l : List AlertRule) (ha : p a = true) (hl : l.all p = true) :
    (insertByCreatedAtDesc a l).all p = true := by
  induction l with
  | nil => simp [insertByCreatedAtDesc, ha]
  | cons b rest ih =>
    simp only [List.all_cons, Bool.and_eq_true] at hl
    by_cases h : a.createdAt ≥ b.createdAt
    · simp [insertByCreatedAtDesc, h, ha, hl.1, hl.2]
    · simp [insertByCreatedAtDesc, h, hl.1, ih hl.2]

theorem sortByCreatedAtDesc_all (p : AlertRule → Bool) (l : List AlertRule)
    (hl : l.all p = true) : (sortByCreatedAtDesc l).all p = true := by
  induction l with
  | nil => simp [sortByCreatedAtDesc]
  | cons b rest ih =>
    simp only [List.all_cons, Bool.and_eq_true] at hl
    exact insertByCreatedAtDesc_all p b _ hl.1 (ih hl.2)

/-- C2: the source evaluator agrees everywhere with the reference
evaluator written from the spec's condition table; a rule whose required
threshold is unset yields `false`. -/
theorem evaluateAlert_eq_evaluateSpec (alert : AlertRule) (priceData : PriceData) :
    evaluateAlert alert priceData = evaluateSpec alert priceData := by
  cases alert with
  | mk id userId symbol condition targetPrice percentageChange isActive createdAt =>
    cases condition <;> cases targetPrice <;> cases percentageChange <;>
      simp [evaluateAlert, evaluateSpec, checkPercentageChange, Option.getD]

/-- C10: every rule returned by `getUserAlerts` is active and owned by
the queried user; deactivated rules still present in the store are never
in the result. -/
theorem getUserAlerts_only_active (userId : String) (store : List AlertRule) :
    (getUserAlerts userId store).all
      (fun a => a.userId == userId && a.isActive) = true := by
  apply sortByCreatedAtDesc_all
  simp only [List.all_eq_true]
  intro a ha
  exact (List.mem_filter.mp ha).2

/-! ### Cache layer (`services/cacheService.ts`) -/

/-- The `CacheData` wrapper (types/index.ts): a cached payload together with its
creation timestamp and its time-to-live, both in milliseconds. -/
structure CacheData (α : Type) where
  data : α
  timestamp : Nat
  ttl : Nat
deriving DecidableEq, Repr

/-- The Redis-backed cache, modelled as a connection flag plus an
association list from keys to entries.  Redis-side `setEx` expiry is not
modelled separately: the timestamp check inside `get` covers the same
freshness window for the properties below. -/
structure CacheState (α : Type) where
  connected : Bool
  store : List (String × CacheData α)
deriving DecidableEq, Repr

/-- The `config.cacheDefaultTtl` value (utils/config.ts): 60000 ms. -/
def cacheDefaultTtl : Nat := 60000

/-- Model of `CacheService.delete` (cacheService.ts:91-99): no-op when
disconnected, otherwise remove the key. -/
def cacheDelete {α : Type} (key : String) (st : CacheState α) : CacheState α :=
  if st.connected then
    { st with store := st.store.filter (fun kv => !(kv.1 == key)) }
  else st

/-- Model of `CacheService.set` (cacheService.ts:44-66): no-op when disconnected;
otherwise overwrite the key with a fresh entry whose ttl is
`ttlSeconds * 1000` when given and `config.cacheDefaultTtl` otherwise. -/
def cacheSet {α : Type} (now : Nat) (key : String) (value : α)
    (ttlSeconds : Option Nat) (st : CacheState α) : CacheState α :=
  if st.connected then
    let entry : CacheData α :=
      { data := value, timestamp := now,
        ttl := match ttlSeconds with | some s => s * 1000 | none => cacheDefaultTtl }
    { st with store := (key, entry) :: st.store.filter (fun kv => !(kv.1 == key)) }
  else st

/-- Model of `CacheService.get` (cacheService.ts:68-89): absent when disconnected
or missing; when the entry's age exceeds its ttl
(`Date.now() - parsed.timestamp > parsed.ttl`), delete it lazily and
return absent; otherwise return the payload.  Truncated `Nat`
subtraction agrees with the JavaScript comparison for timestamps in the
future as well (both sides make the guard false). -/
def cacheGet {α : Type} (now : Nat) (key : String) (st : CacheState α) :
    Option α × CacheState α :=
  if st.connected then
    match st.store.lookup key with
    | none => (none, st)
    | some cd =>
      if now - cd.timestamp > cd.ttl then (none, cacheDelete key st)
      else (some cd.data, st)
  else (none, st)

/-- Modelled from the spec: `getStaleAllowed` (§4.1) does not exist in
`cacheService.ts`; following the spec's words it is the identical lookup
to `get` except that the value is returned even when expired. -/
def cacheGetStaleAllowed {α : Type} (key : String) (st : CacheState α) : Option α :=
  if st.connected then (st.store.lookup key).map (fun cd => cd.data) else none

/-! ### Upstream price client (`services/coinGeckoService.ts`) -/

/-- The `config.supportedCoins` list (utils/config.ts). -/
def supportedCoins : List String :=
  ["bitcoin", "ethereum", "binancecoin", "cardano", "solana",
   "polkadot", "dogecoin", "avalanche-2", "polygon", "chainlink"]

/-- JavaScript `Array.prototype.join(',')` on a list of strings. -/
def joinComma : List String → String
  | [] => ""
  | [s] => s
  | s :: t :: rest => s ++ "," ++ joinComma (t :: rest)

/-- The cache key computed by `getCurrentPrices`
(coinGeckoService.ts:68 and :101): `` `prices:${coins.join(',')}` ``,
with the coin list exactly as given. -/
def pricesCacheKey (coins : List String) : String :=
  "prices:" ++ joinComma coins

/-- The mutable state of `CoinGeckoService` visible to these claims: the
price cache and the `requestCount` incremented by the request
interceptor on every request actually issued to the network. -/
structure ClientState where
  cache : CacheState (List PriceData)
  requestCount : Nat
deriving DecidableEq, Repr

/-- Model of `CoinGeckoService.getCurrentPrices` (coinGeckoService.ts:65-111).
`fetch` is the outcome of the upstream HTTP request (after the
interceptor stack): the network is consulted, and `requestCount`
incremented, only when the cache read misses.  On fetch failure the
`catch` block recomputes the same key and retries the ordinary cache
`get` as fallback before raising. -/
def getCurrentPrices (coinIds : Option (List String))
    (fetch : Except Unit (List PriceData)) (now : Nat) (st : ClientState) :
    Except Unit (List PriceData) × ClientState :=
  let coins := coinIds.getD supportedCoins
  let cacheKey := pricesCacheKey coins
  let (cached, cache1) := cacheGet now cacheKey st.cache
  match cached with
  | some d => (Except.ok d, { st with cache := cache1 })
  | none =>
    match fetch with
    | Except.ok priceData =>
        (Except.ok priceData,
         { cache := cacheSet now cacheKey priceData (some 30) cache1,
           requestCount := st.requestCount + 1 })
    | Except.error _ =>
        let (fallback, cache2) := cacheGet now cacheKey cache1
        match fallback with
        | some d =>
            (Except.ok d, { cache := cache2, requestCount := st.requestCount + 1 })
        | none =>
            (Except.error (), { cache := cache2, requestCount := st.requestCount + 1 })

/-- A concrete snapshot used by the closed counterexamples below. -/
def samplePrice : PriceData :=
  { symbol := "btc", current_price := 100, price_change_percentage_24h := 0 }

/-- A client state holding one cache entry for `prices:bitcoin` written
at time 0 with a 30000 ms ttl. -/
def staleClientState : ClientState :=
  { cache := { connected := true,
               store := [("prices:bitcoin",
                          { data := [samplePrice], timestamp := 0, ttl := 30000 })] },
    requestCount := 0 }

/-- C1: at time 40000 the `prices:bitcoin` entry of `staleClientState`
is 10000 ms past its ttl.  The normal `get` returns absent and deletes
it, the spec's stale-allowed lookup would return the stored payload, yet
`getCurrentPrices` with a failing upstream fetch raises instead of
returning the stale payload: its fallback path calls the same
expiry-checking `get`, contradicting the source comment
"Try to return cached data even if expired as fallback". -/
theorem getCurrentPrices_stale_fallback_raises :
    cacheGet 40000 "prices:bitcoin" staleClientState.cache
      = (none, { connected := true, store := [] }) ∧
    cacheGetStaleAllowed "prices:bitcoin" staleClientState.cache
      = some [samplePrice] ∧
    (getCurrentPrices (some ["bitcoin"]) (Except.error ()) 40000
        staleClientState).1 = Except.error () := by
  refine ⟨?_, ?_, ?_⟩ <;> rfl

/-! ### Shape of the `getCurrentPrices` cache key (C6) -/

/-- Character-level image of `joinComma`, used to reason about key
collisions. -/
def joinCommaData : List (List Char) → List Char
  | [] => []
  | [s] => s
  | s :: t :: rest => s ++ ',' :: joinCommaData (t :: rest)

theorem joinComma_data : ∀ l : List String,
    (joinComma l).data = joinCommaData (l.map String.data)
  | [] => rfl
  | [s] => rfl
  | s :: t :: rest => by
    have ih := joinComma_data (t :: rest)
    simp only [joinComma, joinCommaData, List.map, String.data_append, ih]
    simp

theorem append_comma_inj {a : List Char} : ∀ {b u v : List Char},
    ',' ∉ a → ',' ∉ b → a ++ ',' :: u = b ++ ',' :: v → a = b ∧ u = v := by
  induction a with
  | nil =>
    intro b u v _ hb h
    cases b with
    | nil => simpa using h
    | cons c b' =>
      simp only [List.nil_append, List.cons_append, List.cons.injEq] at h
      exact absurd (h.1 ▸ List.mem_cons_self c b') hb
  | cons c a' ih =>
    intro b u v ha hb h
    cases b with
    | nil =>
      simp only [List.cons_append, List.nil_append, List.cons.injEq] at h
      exact absurd (h.1 ▸ List.mem_cons_self c a') ha
    | cons d b' =>
      simp only [List.cons_append, List.cons.injEq] at h
      have ha' : ',' ∉ a' := fun hm => ha (List.mem_cons_of_mem c hm)
      have hb' : ',' ∉ b' := fun hm => hb (List.mem_cons_of_mem d hm)
      have := ih ha' hb' h.2
      exact ⟨by rw [h.1, this.1], this.2⟩

theorem joinCommaData_inj : ∀ xs ys : List (List Char),
    (∀ s ∈ xs, s ≠ [] ∧ ',' ∉ s) → (∀ s ∈ ys, s ≠ [] ∧ ',' ∉ s) →
    joinCommaData xs = joinCommaData ys → xs = ys
  | [], [], _, _, _ => rfl
  | [], [y], _, hy, h =>
    absurd h.symm (by simpa [joinCommaData] using (hy y (List.mem_singleton_self y)).1)
  | [], y :: y' :: t, _, _, h => by
    exact absurd h.symm (by simp [joinCommaData])
  | [x], [], hx, _, h =>
    absurd h (by simpa [joinCommaData] using (hx x (List.mem_singleton_self x)).1)
  | x :: x' :: t, [], _, _, h => by
    exact absurd h (by simp [joinCommaData])
  | [x], [y], _, _, h => by
    simpa [joinCommaData] using h
  | [x], y :: y' :: t, hx, hy, h => by
    have hmem : ',' ∈ joinCommaData (y :: y' :: t) := by
      simp [joinCommaData]
    rw [joinCommaData] at h
    exact absurd (h ▸ hmem) (hx x (List.mem_singleton_self x)).2
  | x :: x' :: t, [y], hx, hy, h => by
    have hmem : ',' ∈ joinCommaData (x :: x' :: t) := by
      simp [joinCommaData]
    rw [joinCommaData] at h
    exact absurd (h ▸ hmem) (hy y (List.mem_singleton_self y)).2
  | x :: x' :: t, y :: y' :: u, hx, hy, h => by
    rw [joinCommaData, joinCommaData] at h
    have hhead := append_comma_inj (hx x (List.mem_cons_self x _)).2
      (hy y (List.mem_cons_self y _)).2 h
    have htail := joinCommaData_inj (x' :: t) (y' :: u)
      (fun s hs => hx s (List.mem_cons_of_mem x hs))
      (fun s hs => hy s (List.mem_cons_of_mem y hs)) hhead.2
    rw [hhead.1, htail]

/-- C6 (amended): the cache key of `getCurrentPrices` is `"prices:"`
followed by the symbols joined with commas in the order given — no
sorting and no deduplication — so for comma-free nonempty symbols the
key coincides exactly when the ordered symbol lists coincide; reordering
or deduplicating the input changes the key. -/
theorem pricesCacheKey_eq_iff (xs ys : List String)
    (hx : ∀ s ∈ xs, s ≠ "" ∧ ',' ∉ s.data)
    (hy : ∀ s ∈ ys, s ≠ "" ∧ ',' ∉ s.data) :
    pricesCacheKey xs = pricesCacheKey ys ↔ xs = ys := by
  constructor
  · intro h
    have hdata : (pricesCacheKey xs).data = (pricesCacheKey ys).data := by rw [h]
    simp only [pricesCacheKey, String.data_append, joinComma_data] at hdata
    have hjoin := List.append_cancel_left hdata
    have hmap := joinCommaData_inj (xs.map String.data) (ys.map String.data)
      (by intro s hs
          rcases List.mem_map.mp hs with ⟨w, hw, rfl⟩
          rcases hx w hw with ⟨hne, hnc⟩
          exact ⟨fun hnil => hne (String.ext hnil), hnc⟩)
      (by intro s hs
          rcases List.mem_map.mp hs with ⟨w, hw, rfl⟩
          rcases hy w hw with ⟨hne, hnc⟩
          exact ⟨fun hnil => hne (String.ext hnil), hnc⟩)
      hjoin
    exact List.map_injective_iff.mpr (fun a b hab => String.ext hab) hmap
  · intro h; rw [h]

/-- Witness for `pricesCacheKey_eq_iff` at concrete symbol lists. -/
theorem pricesCacheKey_eq_iff_witness :
    pricesCacheKey ["bitcoin", "ethereum"] = pricesCacheKey ["ethereum", "bitcoin"]
      ↔ ["bitcoin", "ethereum"] = ["ethereum", "bitcoin"] :=
  pricesCacheKey_eq_iff _ _ (by decide) (by decide)

/-- C6 counterexample: the key is not invariant under reordering, nor
under deduplication, of the symbol list. -/
theorem pricesCacheKey_not_sorted_dedup :
    pricesCacheKey ["bitcoin", "ethereum"] ≠ pricesCacheKey ["ethereum", "bitcoin"] ∧
    pricesCacheKey ["bitcoin", "bitcoin"] ≠ pricesCacheKey ["bitcoin"] := by
  decide

/-- C7: when the cache holds a fresh entry (age at most its ttl) for the
computed key, `getCurrentPrices` returns its payload with the client
state untouched — in particular `requestCount` is unchanged, whatever
the network oracle would have answered. -/
theorem getCurrentPrices_cache_hit_no_request
    (coinIds : Option (List String)) (fetch : Except Unit (List PriceData))
    (now : Nat) (st : ClientState) (cd : CacheData (List PriceData))
    (hconn : st.cache.connected = true)
    (hlook : st.cache.store.lookup (pricesCacheKey (coinIds.getD supportedCoins))
      = some cd)
    (hfresh : now - cd.timestamp ≤ cd.ttl) :
    getCurrentPrices coinIds fetch now st = (Except.ok cd.data, st) := by
  have hnot : ¬ (now - cd.timestamp > cd.ttl) := not_lt.mpr hfresh
  simp [getCurrentPrices, cacheGet, hconn, hlook, hnot]

/-- Witness for `getCurrentPrices_cache_hit_no_request`: at time 10000
the sample entry is fresh, the cached payload is returned and the state
(including `requestCount`) is unchanged even though the fetch oracle
fails. -/
theorem getCurrentPrices_cache_hit_no_request_witness :
    getCurrentPrices (some ["bitcoin"]) (Except.error ()) 10000 staleClientState
      = (Except.ok [samplePrice], staleClientState) :=
  getCurrentPrices_cache_hit_no_request (some ["bitcoin"]) (Except.error ())
    10000 staleClientState
    { data := [samplePrice], timestamp := 0, ttl := 30000 }
    rfl rfl (by decide)

/-! ### Trigger path and alert checking (`services/alertService.ts`) -/

/-- The slice of a user document read by the trigger path: address, name
and `preferences.emailNotifications`. -/
structure User where
  email : String
  firstName : String
  emailNotifications : Bool
deriving DecidableEq, Repr

/-- Observable side effects of the ingestion loop: the Socket.IO push
(`socketService.sendAlert`), the alert email, the rule deactivation, an
error log entry, the tick's price broadcast
(`socketService.broadcastPriceUpdate`) and the history insert. -/
inductive Effect where
  | push (alertId : Nat)
  | emailSent (address : String) (alertId : Nat)
  | deactivated (alertId : Nat)
  | errorLogged
  | broadcast (prices : List PriceData)
  | historyStored (prices : List PriceData)
deriving DecidableEq, Repr

/-- Outcomes of the fallible collaborators consulted by one
`triggerAlert` run: the user lookup (database), the SMTP dispatch and
the rule-store update. -/
structure TriggerEnv where
  userLookup : Except Unit (Option User)
  emailOk : Bool
  deactivateOk : Bool

/-- Model of `AlertService.updateAlert` as invoked by the trigger path with
`{ isActive: false }`: `findOneAndUpdate({ _id: alertId }, ...)` over a
list-modelled rule store. -/
def deactivateInStore (alertId : Nat) (store : List AlertRule) : List AlertRule :=
  store.map (fun a => if a.id == alertId then { a with isActive := false } else a)

/-- The email step of `triggerAlert` (alertService.ts:167-175): run only
when the user exists and has email notifications enabled;
`emailService.sendAlertEmail` rethrows transport failures
(emailService.ts:132-138). -/
def emailAttempt (env : TriggerEnv) (user : Option User) (alertId : Nat) :
    Except Unit (List Effect) :=
  match user with
  | some u =>
    if u.emailNotifications then
      if env.emailOk then Except.ok [Effect.emailSent u.email alertId]
      else Except.error ()
    else Except.ok []
  | none => Except.ok []

/-- Model of `AlertService.triggerAlert` (alertService.ts:146-183): a single
try/catch wraps the user lookup, the push notification, the conditional
email dispatch and the deactivation, in that order.  Any exception jumps
to the catch, which only logs — so later steps are skipped while the
effects already performed stand, and the caller never sees an error. -/
def triggerAlert (env : TriggerEnv) (alert : AlertRule) (store : List AlertRule) :
    List AlertRule × List Effect :=
  match env.userLookup with
  | Except.error _ => (store, [Effect.errorLogged])
  | Except.ok user =>
    let pushEffects := [Effect.push alert.id]
    match emailAttempt env user alert.id with
    | Except.error _ => (store, pushEffects ++ [Effect.errorLogged])
    | Except.ok emailEffects =>
      if env.deactivateOk then
        (deactivateInStore alert.id store,
         pushEffects ++ emailEffects ++ [Effect.deactivated alert.id])
      else (store, pushEffects ++ emailEffects ++ [Effect.errorLogged])

/-- ASCII uppercase of one character, the case relevant to
`String.prototype.toUpperCase()` on coin symbols. -/
def charUpper (c : Char) : Char :=
  if 'a' ≤ c ∧ c ≤ 'z' then Char.ofNat (c.toNat - 32) else c

/-- Model of JavaScript `toUpperCase()` on a symbol string. -/
def strUpper (s : String) : String := ⟨s.data.map charUpper⟩

/-- The `for` loop of `checkAlerts` (alertService.ts:89-100): the list of
rules to visit was computed once up front; the store evolves as visited
rules trigger. -/
def checkAlertsLoop (envs : Nat → TriggerEnv) (priceData : List PriceData) :
    List AlertRule → List AlertRule → List AlertRule × List Effect
  | [], store => (store, [])
  | alert :: rest, store =>
    match priceData.find? (fun d => strUpper d.symbol == strUpper alert.symbol) with
    | some pd =>
      if evaluateAlert alert pd then
        let res := triggerAlert (envs alert.id) alert store
        let next := checkAlertsLoop envs priceData rest res.1
        (next.1, res.2 ++ next.2)
      else checkAlertsLoop envs priceData rest store
    | none => checkAlertsLoop envs priceData rest store

/-- Model of `AlertService.checkAlerts` (alertService.ts:85-104):
`Alert.find({ isActive: true })` — which may itself fail (`findOk`) —
then the per-rule loop; the surrounding try/catch only logs, so
`checkAlerts` never raises to its caller. -/
def checkAlerts (findOk : Bool) (envs : Nat → TriggerEnv)
    (priceData : List PriceData) (store : List AlertRule) :
    List AlertRule × List Effect :=
  if findOk then
    checkAlertsLoop envs priceData (store.filter (fun a => a.isActive)) store
  else (store, [Effect.errorLogged])

/-- A user with email notifications enabled, for the concrete runs
below. -/
def demoUser : User :=
  { email := "user@example.com", firstName := "Ada", emailNotifications := true }

/-- A trigger environment in which every collaborator succeeds and the
rule owner has email notifications enabled. -/
def allOkEnv : TriggerEnv :=
  { userLookup := Except.ok (some demoUser), emailOk := true, deactivateOk := true }

/-- A trigger environment identical to `allOkEnv` except that the SMTP
dispatch raises. -/
def emailFailEnv : TriggerEnv :=
  { userLookup := Except.ok (some demoUser), emailOk := false, deactivateOk := true }

/-- A concrete active price-above rule. -/
def btcRule : AlertRule :=
  { id := 1, userId := "u1", symbol := "btc", condition := Condition.above,
    targetPrice := some 100, percentageChange := none, isActive := true,
    createdAt := 0 }

/-- A snapshot that triggers `btcRule`. -/
def btcPrice : PriceData :=
  { symbol := "BTC", current_price := 200, price_change_percentage_24h := 0 }

theorem emailAttempt_ok_shape (env : TriggerEnv) (user : Option User)
    (alertId : Nat) (eff : List Effect)
    (h : emailAttempt env user alertId = Except.ok eff) :
    eff = [] ∨ ∃ addr, eff = [Effect.emailSent addr alertId] := by
  cases user with
  | none => simp [emailAttempt] at h; simp [← h]
  | some u =>
    by_cases hn : u.emailNotifications = true
    · by_cases he : env.emailOk = true
      · simp [emailAttempt, hn, he] at h
        exact Or.inr ⟨u.email, h.symm⟩
      · simp [emailAttempt, hn, he] at h
    · simp [emailAttempt, hn] at h; simp [← h]

theorem triggerAlert_good (env : TriggerEnv) (alert : AlertRule)
    (store : List AlertRule) (user : Option User)
    (hu : env.userLookup = Except.ok user)
    (hmail : env.emailOk = true) (hdeact : env.deactivateOk = true) :
    (triggerAlert env alert store).1 = deactivateInStore alert.id store := by
  cases user with
  | none => simp [triggerAlert, emailAttempt, hu, hdeact]
  | some u =>
    by_cases hn : u.emailNotifications = true <;>
      simp [triggerAlert, emailAttempt, hu, hn, hmail, hdeact]

theorem triggerAlert_store_cases (env : TriggerEnv) (alert : AlertRule)
    (store : List AlertRule) :
    (triggerAlert env alert store).1 = store ∨
    (triggerAlert env alert store).1 = deactivateInStore alert.id store := by
  cases hu : env.userLookup with
  | error e => simp [triggerAlert, hu]
  | ok user =>
    cases hm : emailAttempt env user alert.id with
    | error e => simp [triggerAlert, hu, hm]
    | ok eff =>
      by_cases hd : env.deactivateOk = true <;>
        simp [triggerAlert, hu, hm, hd]

theorem push_mem_triggerAlert {env : TriggerEnv} {alert : AlertRule}
    {store : List AlertRule} {i : Nat}
    (h : Effect.push i ∈ (triggerAlert env alert store).2) : i = alert.id := by
  cases hu : env.userLookup with
  | error e => simp [triggerAlert, hu] at h
  | ok user =>
    cases hm : emailAttempt env user alert.id with
    | error e =>
      simp [triggerAlert, hu, hm] at h
      exact h
    | ok eff =>
      rcases emailAttempt_ok_shape env user alert.id eff hm with rfl | ⟨addr, rfl⟩ <;>
        by_cases hd : env.deactivateOk = true <;>
        simp [triggerAlert, hu, hm, hd] at h <;>
        exact h

theorem deactivateInStore_sets (i : Nat) (store : List AlertRule) :
    ∀ a ∈ deactivateInStore i store, a.id = i → a.isActive = false := by
  intro a ha hai
  rcases List.mem_map.mp ha with ⟨b, hb, heq⟩
  by_cases hbj : (b.id == i) = true
  · rw [if_pos hbj] at heq; rw [← heq]
  · rw [if_neg hbj] at heq
    subst heq
    exact absurd (beq_iff_eq.mpr hai) hbj

theorem deactivateInStore_preserves (i j : Nat) (store : List AlertRule)
    (h : ∀ a ∈ store, a.id = i → a.isActive = false) :
    ∀ a ∈ deactivateInStore j store, a.id = i → a.isActive = false := by
  intro a ha hai
  rcases List.mem_map.mp ha with ⟨b, hb, heq⟩
  by_cases hbj : (b.id == j) = true
  · rw [if_pos hbj] at heq; rw [← heq]
  · rw [if_neg hbj] at heq
    subst heq
    exact h b hb hai

theorem checkAlertsLoop_preserves (envs : Nat → TriggerEnv)
    (prices : List PriceData) (i : Nat) :
    ∀ (todo store : List AlertRule),
    (∀ a ∈ store, a.id = i → a.isActive = false) →
    ∀ a ∈ (checkAlertsLoop envs prices todo store).1, a.id = i → a.isActive = false := by
  intro todo
  induction todo with
  | nil => intro store h; simpa [checkAlertsLoop] using h
  | cons alert rest ih =>
    intro store h
    simp only [checkAlertsLoop]
    cases hf : prices.find? (fun d => strUpper d.symbol == strUpper alert.symbol) with
    | none => exact ih store h
    | some pd =>
      cases he : evaluateAlert alert pd with
      | false => simp only [he, Bool.false_eq_true, if_false]; exact ih store h
      | true =>
        simp only [he, if_true]
        apply ih
        rcases triggerAlert_store_cases (envs alert.id) alert store with hc | hc
        · rw [hc]; exact h
        · rw [hc]; exact deactivateInStore_preserves i alert.id store h

theorem push_mem_checkAlertsLoop (envs : Nat → TriggerEnv)
    (prices : List PriceData) (i : Nat) :
    ∀ (todo store : List AlertRule),
    Effect.push i ∈ (checkAlertsLoop envs prices todo store).2 →
    ∃ a ∈ todo, a.id = i := by
  intro todo
  induction todo with
  | nil => intro store h; simp [checkAlertsLoop] at h
  | cons alert rest ih =>
    intro store h
    simp only [checkAlertsLoop] at h
    cases hf : prices.find? (fun d => strUpper d.symbol == strUpper alert.symbol) with
    | none =>
      simp only [hf] at h
      rcases ih store h with ⟨a, ha, hai⟩
      exact ⟨a, List.mem_cons_of_mem alert ha, hai⟩
    | some pd =>
      simp only [hf] at h
      cases he : evaluateAlert alert pd with
      | false =>
        simp only [he, Bool.false_eq_true, if_false] at h
        rcases ih store h with ⟨a, ha, hai⟩
        exact ⟨a, List.mem_cons_of_mem alert ha, hai⟩
      | true =>
        simp only [he, if_true] at h
        rcases List.mem_append.mp h with h1 | h2
        · exact ⟨alert, List.mem_cons_self alert rest, (push_mem_triggerAlert h1).symm⟩
        · rcases ih _ h2 with ⟨a, ha, hai⟩
          exact ⟨a, List.mem_cons_of_mem alert ha, hai⟩

theorem checkAlertsLoop_fired_inactive (envs : Nat → TriggerEnv)
    (prices : List PriceData) (i : Nat)
    (hgood : ∀ j, (∃ user, (envs j).userLookup = Except.ok user) ∧
      (envs j).emailOk = true ∧ (envs j).deactivateOk = true) :
    ∀ (todo store : List AlertRule),
    Effect.push i ∈ (checkAlertsLoop envs prices todo store).2 →
    ∀ a ∈ (checkAlertsLoop envs prices todo store).1, a.id = i → a.isActive = false := by
  intro todo
  induction todo with
  | nil => intro store h; simp [checkAlertsLoop] at h
  | cons alert rest ih =>
    intro store h
    simp only [checkAlertsLoop] at h ⊢
    cases hf : prices.find? (fun d => strUpper d.symbol == strUpper alert.symbol) with
    | none =>
      simp only [hf] at h ⊢
      exact ih store h
    | some pd =>
      simp only [hf] at h ⊢
      cases he : evaluateAlert alert pd with
      | false =>
        simp only [he, Bool.false_eq_true, if_false] at h ⊢
        exact ih store h
      | true =>
        simp only [he, if_true] at h ⊢
        rcases List.mem_append.mp h with h1 | h2
        · have hi : i = alert.id := push_mem_triggerAlert h1
          rcases hgood alert.id with ⟨⟨user, hu⟩, hmail, hdeact⟩
          have hstore : (triggerAlert (envs alert.id) alert store).1
              = deactivateInStore alert.id store :=
            triggerAlert_good (envs alert.id) alert store user hu hmail hdeact
          apply checkAlertsLoop_preserves
          rw [hstore, hi]
          exact deactivateInStore_sets alert.id store
        · exact ih _ h2

/-- C3 (amended): provided every collaborator on the trigger path
succeeds (user lookup, email dispatch, store update), any rule that
fires during `checkAlerts` is inactive in the resulting store; and a
rule whose active flag is false is never fired by `checkAlerts`, since
the check selects only rules with `isActive = true`. -/
theorem checkAlerts_one_shot (findOk : Bool) (envs : Nat → TriggerEnv)
    (prices : List PriceData) (store : List AlertRule)
    (hgood : ∀ j, (∃ user, (envs j).userLookup = Except.ok user) ∧
      (envs j).emailOk = true ∧ (envs j).deactivateOk = true) :
    (∀ i, Effect.push i ∈ (checkAlerts findOk envs prices store).2 →
      ∀ a ∈ (checkAlerts findOk envs prices store).1, a.id = i →
        a.isActive = false) ∧
    (∀ i, (∀ a ∈ store, a.id = i → a.isActive = false) →
      Effect.push i ∉ (checkAlerts findOk envs prices store).2) := by
  unfold checkAlerts
  cases hof : findOk with
  | false =>
    simp only [Bool.false_eq_true, if_false]
    constructor
    · intro i hi; simp at hi
    · intro i _ hi; simp at hi
  | true =>
    simp only [if_true]
    constructor
    · intro i hi
      exact checkAlertsLoop_fired_inactive envs prices i hgood _ store hi
    · intro i hinact hi
      rcases push_mem_checkAlertsLoop envs prices i _ store hi with ⟨a, ha, hai⟩
      have hmem := List.mem_filter.mp ha
      exact absurd hmem.2 (by simp [hinact a hmem.1 hai])

/-- Witness for `checkAlerts_one_shot`: after `btcRule` fires on a
fully-successful tick, a second tick on the resulting store never fires
it again. -/
theorem checkAlerts_one_shot_witness :
    Effect.push 1 ∉ (checkAlerts true (fun _ => allOkEnv) [btcPrice]
      (checkAlerts true (fun _ => allOkEnv) [btcPrice] [btcRule]).1).2 :=
  (checkAlerts_one_shot true (fun _ => allOkEnv) [btcPrice]
      (checkAlerts true (fun _ => allOkEnv) [btcPrice] [btcRule]).1
      (fun _ => ⟨⟨some demoUser, rfl⟩, rfl, rfl⟩)).2 1 (by decide)

/-- C3 counterexample: with the SMTP dispatch raising, `btcRule` fires
on a tick (its push is emitted) yet stays active in the store, and the
very next tick fires it again — the one-shot claim fails as stated. -/
theorem checkAlerts_email_failure_refires :
    checkAlerts true (fun _ => emailFailEnv) [btcPrice] [btcRule]
      = ([btcRule], [Effect.push 1, Effect.errorLogged]) ∧
    checkAlerts true (fun _ => emailFailEnv) [btcPrice]
        (checkAlerts true (fun _ => emailFailEnv) [btcPrice] [btcRule]).1
      = ([btcRule], [Effect.push 1, Effect.errorLogged]) :=
  ⟨rfl, rfl⟩

/-- C5 (amended): the trigger path runs its side effects sequentially
inside one try/catch.  Given a user with email notifications enabled: a
failing email dispatch is caught and logged but aborts the remaining
steps, so the rule is NOT deactivated while the push stands; a failing
deactivation leaves the store unchanged but does not undo the
already-sent push; when email and deactivation both succeed the rule is
deactivated after the push. -/
theorem triggerAlert_failure_isolation (env : TriggerEnv) (alert : AlertRule)
    (store : List AlertRule) (u : User)
    (hu : env.userLookup = Except.ok (some u)) :
    (u.emailNotifications = true → env.emailOk = false →
      triggerAlert env alert store
        = (store, [Effect.push alert.id, Effect.errorLogged])) ∧
    (env.deactivateOk = false → (triggerAlert env alert store).1 = store ∧
      Effect.push alert.id ∈ (triggerAlert env alert store).2) ∧
    (env.emailOk = true → env.deactivateOk = true →
      (triggerAlert env alert store).1 = deactivateInStore alert.id store ∧
      Effect.push alert.id ∈ (triggerAlert env alert store).2) := by
  refine ⟨?_, ?_, ?_⟩
  · intro hn hmail
    simp [triggerAlert, emailAttempt, hu, hn, hmail]
  · intro hd
    by_cases hn : u.emailNotifications = true
    · by_cases hmail : env.emailOk = true
      · simp [triggerAlert, emailAttempt, hu, hn, hmail, hd]
      · simp [triggerAlert, emailAttempt, hu, hn, hmail, hd]
    · simp [triggerAlert, emailAttempt, hu, hn, hd]
  · intro hmail hd
    by_cases hn : u.emailNotifications = true <;>
      simp [triggerAlert, emailAttempt, hu, hn, hmail, hd]

/-- Witness for `triggerAlert_failure_isolation`: the all-success run on
`btcRule` deactivates the rule after sending the push. -/
theorem triggerAlert_failure_isolation_witness :
    (triggerAlert allOkEnv btcRule [btcRule]).1
      = deactivateInStore btcRule.id [btcRule] ∧
    Effect.push btcRule.id ∈ (triggerAlert allOkEnv btcRule [btcRule]).2 :=
  (triggerAlert_failure_isolation allOkEnv btcRule [btcRule] demoUser rfl).2.2
    rfl rfl

/-- C5 counterexample: when the email dispatch raises, the rule is left
active — the failure is not isolated from the deactivation step — even
though the push notification was already sent. -/
theorem triggerAlert_email_failure_skips_deactivation :
    triggerAlert emailFailEnv btcRule [btcRule]
      = ([btcRule], [Effect.push 1, Effect.errorLogged]) ∧
    btcRule.isActive = true :=
  ⟨rfl, rfl⟩

/-! ### Rate-limit handling in the response interceptor
(`coinGeckoService.ts` constructor) -/

/-- One upstream answer to an issued request: a success payload, or a
failure carrying the HTTP status (`none` for pure network errors) and,
when present, the `retry-after` header in seconds. -/
inductive HttpOutcome (V : Type) where
  | success (value : V)
  | failure (status : Option Nat) (retryAfter : Option Nat)
deriving DecidableEq, Repr

/-- The run of one logical request through the response interceptor
against a stream of upstream answers: how many requests were actually
issued, the seconds waited before each retry, and the final outcome
(`none` when the answer stream was exhausted while the interceptor was
still retrying). -/
structure RetryRun (V : Type) where
  requests : Nat
  waits : List Nat
  result : Option (Except (Option Nat) V)
deriving Repr

/-- The response interceptor installed in the `CoinGeckoService`
constructor (coinGeckoService.ts:41-61): a 429 failure waits
`headers['retry-after'] || 60` seconds and re-issues the same request
(`this.api.request(error.config)`), which runs through this same
interceptor again — there is no retry counter; any non-429 failure is
rejected to the caller. -/
def sendRequest {V : Type} : List (HttpOutcome V) → RetryRun V
  | [] => { requests := 0, waits := [], result := none }
  | HttpOutcome.success v :: _ =>
      { requests := 1, waits := [], result := some (Except.ok v) }
  | HttpOutcome.failure status retryAfter :: rest =>
      if status = some 429 then
        let run := sendRequest rest
        { requests := run.requests + 1,
          waits := retryAfter.getD 60 :: run.waits,
          result := run.result }
      else
        { requests := 1, waits := [], result := some (Except.error status) }

/-- C4 (amended): every 429 answer makes the interceptor wait the
server-provided retry-after (60 s when the header is absent) and issue
one more request through the same interceptor — so consecutive 429s
produce unboundedly many retries rather than at most one — while any
non-429 failure is surfaced to the caller at once, and a success
returns after the one request that obtained it. -/
theorem sendRequest_retry_semantics {V : Type} (status : Option Nat)
    (retryAfter : Option Nat) (rest : List (HttpOutcome V)) (v : V) :
    (sendRequest (HttpOutcome.failure (some 429) retryAfter :: rest)
      = { requests := (sendRequest rest).requests + 1,
          waits := retryAfter.getD 60 :: (sendRequest rest).waits,
          result := (sendRequest rest).result }) ∧
    (status ≠ some 429 →
      sendRequest (HttpOutcome.failure status retryAfter :: rest)
        = { requests := 1, waits := [], result := some (Except.error status) }) ∧
    (sendRequest (HttpOutcome.success v :: rest)
      = { requests := 1, waits := [], result := some (Except.ok v) }) := by
  refine ⟨by simp [sendRequest], ?_, by simp [sendRequest]⟩
  intro h
  simp [sendRequest, h]

/-- Witness for `sendRequest_retry_semantics`: a 500 answer is surfaced
immediately, after a single request and no waiting. -/
theorem sendRequest_retry_semantics_witness :
    sendRequest [HttpOutcome.failure (some 500) none]
      = { requests := 1, waits := [],
          result := some (Except.error (some 500) : Except (Option Nat) (List PriceData)) } :=
  (sendRequest_retry_semantics (some 500) none [] ([] : List PriceData)).2.1
    (by decide)

/-- C4 counterexample: when the single mandated retry is answered with
another 429, the interceptor does not surface the failure — it waits
again and issues a third request, which here succeeds.  The claim's
"exactly once more" bound fails on the code. -/
theorem sendRequest_not_bounded_by_one_retry :
    sendRequest [HttpOutcome.failure (some 429) none,
                 HttpOutcome.failure (some 429) (some 30),
                 HttpOutcome.success [samplePrice]]
      = { requests := 3, waits := [60, 30],
          result := some (Except.ok [samplePrice]) } :=
  rfl

/-! ### The scheduler price tick (`app.ts`, `initializeCronJobs`) -/

/-- The collaborator outcomes one price tick depends on: the fetch
result (`getCurrentPrices` either returns snapshots or throws), whether
the Socket.IO broadcast raises, the rule-store read inside
`checkAlerts`, the per-rule trigger environments, and whether the tick
falls on a history-persist second
(`Math.floor(Date.now() / 1000) % 60 === 0`). -/
structure TickEnv where
  fetch : Except Unit (List PriceData)
  broadcastOk : Bool
  findOk : Bool
  envs : Nat → TriggerEnv
  historyDue : Bool

/-- The body of the ten-second cron callback (app.ts:142-156) without
its surrounding try/catch: fetch, broadcast, check alerts, optionally
store history.  A fetch or broadcast exception propagates out of the
body; `checkAlerts` and `storePriceHistory` absorb their own errors
internally (alertService.ts:101-103, app.ts:193-195). -/
def priceTickBody (env : TickEnv) (store : List AlertRule) :
    Except Unit (List AlertRule × List Effect) :=
  match env.fetch with
  | Except.error e => Except.error e
  | Except.ok prices =>
    if env.broadcastOk then
      let checked := checkAlerts env.findOk env.envs prices store
      let history := if env.historyDue then [Effect.historyStored prices] else []
      Except.ok (checked.1, Effect.broadcast prices :: (checked.2 ++ history))
    else Except.error ()

/-- The scheduled callback (app.ts:142-160): the tick body inside
`try { ... } catch (error) { logger.error(...) }` — an exception
anywhere in the body is logged and absorbed, never rethrown to the cron
driver. -/
def priceTick (env : TickEnv) (store : List AlertRule) :
    List AlertRule × List Effect :=
  match priceTickBody env store with
  | Except.ok r => r
  | Except.error _ => (store, [Effect.errorLogged])

/-- The cron driver: one `priceTick` per scheduled instant, threading
the rule store and recording each tick's effect trace. -/
def runScheduler (envs : List TickEnv) (store : List AlertRule) :
    List AlertRule × List (List Effect) :=
  match envs with
  | [] => (store, [])
  | env :: rest =>
    let t := priceTick env store
    let r := runScheduler rest t.1
    (r.1, t.2 :: r.2)

/-- C8: an exception anywhere inside a tick body is absorbed by the
tick's catch (which only logs), and the scheduler executes every
scheduled tick — one trace per scheduled instant — whatever failures the
individual ticks encounter. -/
theorem priceTick_isolates_failures (envs : List TickEnv)
    (store : List AlertRule) (env : TickEnv) (st : List AlertRule)
    (hfail : priceTickBody env st = Except.error ()) :
    priceTick env st = (st, [Effect.errorLogged]) ∧
    (runScheduler envs store).2.length = envs.length := by
  constructor
  · simp [priceTick, hfail]
  · induction envs generalizing store with
    | nil => simp [runScheduler]
    | cons e rest ih => simp [runScheduler, ih]

/-- Witness for `priceTick_isolates_failures`: a tick whose fetch throws
logs the error, leaves the store unchanged, and a two-tick schedule
containing it still produces two tick traces. -/
theorem priceTick_isolates_failures_witness :
    priceTick { fetch := Except.error (), broadcastOk := true, findOk := true,
                envs := fun _ => allOkEnv, historyDue := false } [btcRule]
      = ([btcRule], [Effect.errorLogged]) ∧
    (runScheduler
        [{ fetch := Except.error (), broadcastOk := true, findOk := true,
           envs := fun _ => allOkEnv, historyDue := false },
         { fetch := Except.ok [btcPrice], broadcastOk := true, findOk := true,
           envs := fun _ => allOkEnv, historyDue := false }]
        [btcRule]).2.length = 2 :=
  priceTick_isolates_failures _ [btcRule] _ [btcRule] rfl

/-- C9: whenever the fetch succeeds and the broadcast itself does not
raise, the tick's trace begins with the broadcast of the fetched
snapshot set — before any trigger-path effect and independently of any
failure inside alert evaluation, which can therefore never suppress it. -/
theorem broadcast_precedes_alert_eval (env : TickEnv) (store : List AlertRule)
    (prices : List PriceData) (hfetch : env.fetch = Except.ok prices)
    (hbc : env.broadcastOk = true) :
    (priceTick env store).2.head? = some (Effect.broadcast prices) := by
  simp [priceTick, priceTickBody, hfetch, hbc]

/-- Witness for `broadcast_precedes_alert_eval`: even when the
rule-store read inside alert checking fails, the broadcast of the
fetched snapshots is still the first effect of the tick. -/
theorem broadcast_precedes_alert_eval_witness :
    (priceTick { fetch := Except.ok [btcPrice], broadcastOk := true,
                 findOk := false, envs := fun _ => emailFailEnv,
                 historyDue := false } [btcRule]).2.head?
      = some (Effect.broadcast [btcPrice]) :=
  broadcast_precedes_alert_eval _ [btcRule] [btcPrice] rfl rfl

end CryptoMonitor
